import Mathlib

/-!
Verification development for the rearc-poc repository.

The development shallowly embeds the two core components:

* the object-store synchronization engine of src/lambda-api/lambda_function.py
  (functions md5_bytes, list_bls_files, list_s3_objects, pull_population_data_to_s3,
  sync_bls_pr_to_s3, create_s3_bucket_if_not_exists, handler), and
* the websocket event broadcaster of src/s3-webhook/main.py
  (class ConnectionManager with connect, disconnect, broadcast).

External-library behaviour is parameterized, never modelled from the spec:
hashlib.md5 becomes an arbitrary function fp from byte lists to strings,
urllib.parse.urljoin becomes an arbitrary binary function on strings, and
every httpx / boto3 network transport becomes an Except-valued parameter
(the value the call returned, or the exception it raised).  Python dicts are
embedded as association lists with Python assignment/lookup semantics
(dictInsert overwrites in place, dictGet returns the first binding), which
preserves insertion order exactly as CPython does.  Python bytes are List Nat.
-/

namespace RearcPoc

abbrev Bytes := List Nat

/-! ## Python dict model -/

section Dict

variable {K V : Type} [DecidableEq K]

/-- Lookup in a Python dict: the binding for the key, if any. -/
def dictGet : List (K × V) → K → Option V
  | [], _ => none
  | e :: rest, k => if e.1 = k then some e.2 else dictGet rest k

/-- Python dict assignment d[k] = v: overwrite the existing binding in place,
or append a new binding at the end (CPython insertion order). -/
def dictInsert : List (K × V) → K → V → List (K × V)
  | [], k, v => [(k, v)]
  | e :: rest, k, v => if e.1 = k then (k, v) :: rest else e :: dictInsert rest k v

/-- Removal of every binding of a key (models boto3 delete_object on the
embedded store, where keys are unique). -/
def dictRemove (d : List (K × V)) (k : K) : List (K × V) :=
  d.filter fun e => decide (e.1 ≠ k)

/-- Keys of the dict, in order. -/
def dictKeys (d : List (K × V)) : List K :=
  d.map Prod.fst

/-- Python membership test k in d. -/
def dictContains (d : List (K × V)) (k : K) : Bool :=
  (dictGet d k).isSome

theorem dictGet_insert_self (d : List (K × V)) (k : K) (v : V) :
    dictGet (dictInsert d k v) k = some v := by
  induction d with
  | nil => simp [dictInsert, dictGet]
  | cons e rest ih =>
    by_cases h : e.1 = k
    · simp [dictInsert, dictGet, h]
    · simp [dictInsert, dictGet, h, ih]

theorem dictGet_insert_ne (d : List (K × V)) (k k' : K) (v : V) (h : k' ≠ k) :
    dictGet (dictInsert d k v) k' = dictGet d k' := by
  have hkk : ¬k = k' := fun hh => h hh.symm
  induction d with
  | nil => simp [dictInsert, dictGet, hkk]
  | cons e rest ih =>
    by_cases he : e.1 = k
    · subst he
      simp [dictInsert, dictGet, hkk]
    · by_cases he2 : e.1 = k'
      · simp [dictInsert, dictGet, he, he2, hkk, h]
      · simp [dictInsert, dictGet, he, he2, ih]

theorem dictGet_remove_self (d : List (K × V)) (k : K) :
    dictGet (dictRemove d k) k = none := by
  induction d with
  | nil => rfl
  | cons e rest ih =>
    by_cases h : e.1 = k
    · simpa [dictRemove, List.filter, h] using ih
    · simpa [dictRemove, List.filter, h, dictGet] using ih

theorem dictGet_remove_ne (d : List (K × V)) (k k' : K) (h : k' ≠ k) :
    dictGet (dictRemove d k) k' = dictGet d k' := by
  have hkk : ¬k = k' := fun hh => h hh.symm
  have hkk2 : ¬k' = k := h
  induction d with
  | nil => rfl
  | cons e rest ih =>
    by_cases he : e.1 = k
    · simpa [dictRemove, List.filter, he, dictGet, hkk] using ih
    · by_cases he2 : e.1 = k'
      · simp [dictRemove, List.filter, dictGet, he, he2, hkk2]
      · simpa [dictRemove, List.filter, he, dictGet, he2] using ih

theorem dictGet_none_of_filter {d : List (K × V)} {k : K} (q : K × V → Bool)
    (h : dictGet d k = none) : dictGet (d.filter q) k = none := by
  induction d with
  | nil => rfl
  | cons e rest ih =>
    by_cases he : e.1 = k
    · simp [dictGet, he] at h
    · simp only [dictGet, he, if_neg he] at h
      by_cases hq : q e
      · simpa [List.filter, hq, dictGet, he] using ih h
      · simpa [List.filter, hq] using ih h

theorem dictGet_isSome_iff_mem_keys (d : List (K × V)) (k : K) :
    (dictGet d k).isSome = true ↔ k ∈ dictKeys d := by
  induction d with
  | nil => simp [dictGet, dictKeys]
  | cons e rest ih =>
    by_cases he : e.1 = k
    · simp [dictGet, dictKeys, he]
    · have hk : ¬k = e.1 := fun hh => he hh.symm
      simp [dictGet, dictKeys, he, ih, hk]

theorem dictContains_iff_mem_keys (d : List (K × V)) (k : K) :
    dictContains d k = true ↔ k ∈ dictKeys d := by
  simpa [dictContains] using dictGet_isSome_iff_mem_keys d k

theorem dictGet_eq_some_of_mem_nodup {d : List (K × V)} {e : K × V}
    (hN : (d.map Prod.fst).Nodup) (hm : e ∈ d) : dictGet d e.1 = some e.2 := by
  induction d with
  | nil => cases hm
  | cons f rest ih =>
    rcases List.mem_cons.mp hm with hm1 | hm1
    · subst hm1
      simp [dictGet]
    · have hne : f.1 ≠ e.1 := by
        intro hfe
        have hmm : e.1 ∈ rest.map Prod.fst := List.mem_map_of_mem Prod.fst hm1
        rw [← hfe] at hmm
        exact (List.nodup_cons.mp hN).1 hmm
      have hr := ih (List.nodup_cons.mp hN).2 hm1
      simpa [dictGet, hne] using hr

theorem entry_unique_of_nodup {d : List (K × V)} {e f : K × V}
    (hN : (d.map Prod.fst).Nodup) (he : e ∈ d) (hf : f ∈ d) (hk : e.1 = f.1) :
    e = f := by
  have h1 := dictGet_eq_some_of_mem_nodup hN he
  have h2 := dictGet_eq_some_of_mem_nodup hN hf
  rw [hk, h2] at h1
  exact Prod.ext hk (Option.some.inj h1).symm

end Dict

/-! ## String helpers used by the embedding -/

/-- Test that p is a leading segment of k (Python str.startswith). -/
def strHasPfx (k p : String) : Bool :=
  p.data.isPrefixOf k.data

/-- Drop the leading segment of length p.length from k.  On keys returned by a
prefix-scoped object listing this is exactly key.replace(p, "", 1) from
list_s3_objects, since the unique first occurrence of p sits at position 0. -/
def stripPfx (k p : String) : String :=
  ⟨k.data.drop p.data.length⟩

/-- Python os.path.basename for forward-slash paths: the final path segment. -/
def baseName (s : String) : String :=
  ⟨(s.data.reverse.takeWhile fun c => decide (c ≠ '/')).reverse⟩

/-- Python s.endswith("/"). -/
def endsWithSlash (s : String) : Bool :=
  decide (s.data.getLast? = some '/')

/-- Python s.startswith("?"). -/
def startsWithQuery (s : String) : Bool :=
  decide (s.data.head? = some '?')

/-- Python s.rstrip("/"): remove every trailing slash. -/
def rstripSlash (s : String) : String :=
  ⟨(s.data.reverse.dropWhile fun c => decide (c = '/')).reverse⟩

/-- Python s.lstrip("/"): remove every leading slash. -/
def lstripSlash (s : String) : String :=
  ⟨s.data.dropWhile fun c => decide (c = '/')⟩

theorem stripPfx_append (p f : String) : stripPfx (p ++ f) p = f := by
  apply String.ext
  show ((p ++ f).data.drop p.data.length) = f.data
  rw [String.data_append]
  exact List.drop_left p.data f.data

theorem strHasPfx_append (p f : String) : strHasPfx (p ++ f) p = true := by
  show p.data.isPrefixOf (p ++ f).data = true
  rw [String.data_append, List.isPrefixOf_iff_prefix]
  exact List.prefix_append p.data f.data

theorem eq_append_stripPfx {k p : String} (h : strHasPfx k p = true) :
    k = p ++ stripPfx k p := by
  apply String.ext
  rw [String.data_append]
  show k.data = p.data ++ k.data.drop p.data.length
  unfold strHasPfx at h
  rw [List.isPrefixOf_iff_prefix, List.prefix_iff_eq_take] at h
  conv_lhs => rw [← List.take_append_drop p.data.length k.data]
  rw [← h]

theorem append_left_cancel_str {p a b : String} (h : p ++ a = p ++ b) : a = b := by
  have h2 : (p ++ a).data = (p ++ b).data := by rw [h]
  rw [String.data_append, String.data_append] at h2
  exact String.ext (List.append_cancel_left h2)

/-! ## Embedding of src/lambda-api/lambda_function.py -/

/-- Exception raised by an external call (httpx raise_for_status, boto3
transport): the embedding only ever inspects which exception was raised. -/
inductive NetErr
  | httpStatusError (code : Nat)
  | connectError
deriving DecidableEq

/-- Object-store key: bucket name paired with object key. -/
abbrev StoreKey := String × String

/-- Object-store contents: one binding per object, from (bucket, key) to the
entity tag the store reports for it.  The store computes the entity tag of a
simple put as the content fingerprint, which the embedding reflects by
storing fp(content) on put. -/
abbrev Store := List (StoreKey × String)

/-- Observable mutation issued against the object store. -/
inductive StoreOp
  | put (bucket : String) (key : String)
  | delete (bucket : String) (key : String)
deriving DecidableEq

/-- Result of one call to the sync engine: the store as left behind, the
mutations issued in order, and the exception that escaped the call, if any
(sync_bls_pr_to_s3 returns None on success; error = some e means the call
raised e). -/
structure SyncOutcome where
  store : Store
  ops : List StoreOp
  error : Option NetErr
deriving DecidableEq

/-- Embedding of list_s3_objects: paginate over the bucket restricted to the
given key prefix and return the dict from key.replace(pfx, "", 1) to the
unquoted entity tag.  Every listed key starts with pfx, so the replace is
exactly stripPfx. -/
def listS3Objects (store : Store) (bucket pfx : String) : List (String × String) :=
  store.filterMap fun e =>
    if e.1.1 = bucket ∧ strHasPfx e.1.2 pfx = true then
      some (stripPfx e.1.2 pfx, e.2)
    else none

/-- Embedding of the first loop of sync_bls_pr_to_s3 (lines 153-164): for each
(filename, url) in bls_files, GET the url (raising aborts the loop), compute
content_md5 = fp(content) of the freshly downloaded bytes, skip when s3_files
has the filename with an equal fingerprint, otherwise put_object to
pfx ++ filename.  Returns the store after the loop, the puts issued by this
suffix of the loop in order, and the exception that aborted it, if any. -/
def uploadLoop (fp : Bytes → String) (fetch : String → Except NetErr Bytes)
    (s3Files : List (String × String)) (bucket pfx : String) :
    List (String × String) → Store → Store × List StoreOp × Option NetErr
  | [], st => (st, [], none)
  | fu :: rest, st =>
    match fetch fu.2 with
    | .error e => (st, [], some e)
    | .ok content =>
      let contentMd5 := fp content
      if dictGet s3Files fu.1 = some contentMd5 then
        uploadLoop fp fetch s3Files bucket pfx rest st
      else
        let st1 := dictInsert st (bucket, pfx ++ fu.1) contentMd5
        let r := uploadLoop fp fetch s3Files bucket pfx rest st1
        (r.1, .put bucket (pfx ++ fu.1) :: r.2.1, r.2.2)

/-- Embedding of the second loop of sync_bls_pr_to_s3 (lines 167-170): for
each filename of s3_files not in bls_files, delete_object at
pfx ++ filename. -/
def deleteLoop (blsFiles : List (String × String)) (bucket pfx : String) :
    List String → Store → Store × List StoreOp
  | [], st => (st, [])
  | f :: rest, st =>
    if dictContains blsFiles f then deleteLoop blsFiles bucket pfx rest st
    else
      let st1 := dictRemove st (bucket, pfx ++ f)
      let r := deleteLoop blsFiles bucket pfx rest st1
      (r.1, .delete bucket (pfx ++ f) :: r.2)

/-- Embedding of sync_bls_pr_to_s3.  The remote listing fetch of
list_bls_files and the boto3 transport of the paginated list_objects_v2 are
the two external calls made before any mutation; each is passed in as the
Except value it produced.  On either failing, the raised exception escapes
with the store untouched.  Otherwise the upload loop runs over the remote
dict in order (aborting with the raised exception if a file GET fails, as the
code has no per-file handler), and only then the delete loop runs over the
keys of s3_files. -/
def syncBlsPrToS3 (fp : Bytes → String) (fetch : String → Except NetErr Bytes)
    (listingResult : Except NetErr (List (String × String)))
    (listTransport : Except NetErr Unit)
    (store : Store) (bucket pfx : String) : SyncOutcome :=
  match listingResult with
  | .error e => ⟨store, [], some e⟩
  | .ok blsFiles =>
    match listTransport with
    | .error e => ⟨store, [], some e⟩
    | .ok _ =>
      let s3Files := listS3Objects store bucket pfx
      let up := uploadLoop fp fetch s3Files bucket pfx blsFiles store
      match up.2.2 with
      | some e => ⟨up.1, up.2.1, some e⟩
      | none =>
        let del := deleteLoop blsFiles bucket pfx (dictKeys s3Files) up.1
        ⟨del.1, up.2.1 ++ del.2, none⟩

/-- Embedding of the body of the anchor loop of list_bls_files (lines 53-63):
skip an anchor with no href, an empty href, an href ending in "/" or an href
starting with "?"; otherwise set files[os.path.basename(href)] =
urljoin(ROOT_URL, href).  The urljoin of urllib is the parameter u; root is
ROOT_URL (the site root), deliberately not the listing page URL BASE_URL. -/
def listBlsFilesStep (u : String → String → String) (root : String)
    (files : List (String × String)) (href? : Option String) :
    List (String × String) :=
  match href? with
  | none => files
  | some href =>
    if href = "" ∨ endsWithSlash href = true ∨ startsWithQuery href = true then
      files
    else
      dictInsert files (baseName href) (u root href)

/-- Tail of the anchor loop of list_bls_files, starting from a partial dict. -/
def listBlsFilesGo (u : String → String → String) (root : String) :
    List (Option String) → List (String × String) → List (String × String)
  | [], files => files
  | h :: rest, files => listBlsFilesGo u root rest (listBlsFilesStep u root files h)

/-- Embedding of list_bls_files over an already-fetched listing document,
given as the list of href attributes of its anchors in document order. -/
def listBlsFiles (u : String → String → String) (root : String)
    (hrefs : List (Option String)) : List (String × String) :=
  listBlsFilesGo u root hrefs []

/-- Last href in document order that the list_bls_files filter keeps and whose
final path segment is the given name.  Used to characterize which link an
entry of the returned dict comes from. -/
def lastKeptHref (hrefs : List (Option String)) (name : String) : Option String :=
  match hrefs with
  | [] => none
  | h :: rest =>
    match lastKeptHref rest name with
    | some r => some r
    | none =>
      match h with
      | none => none
      | some href =>
        if (href = "" ∨ endsWithSlash href = true ∨ startsWithQuery href = true) then
          none
        else if baseName href = name then some href else none

/-- Bucket-listing state used by the handler path. -/
structure S3State where
  buckets : List String
  objects : Store
deriving DecidableEq

/-- Embedding of create_s3_bucket_if_not_exists. -/
def createS3BucketIfNotExists (st : S3State) (bucketName : String) : S3State :=
  if bucketName ∈ st.buckets then st
  else { st with buckets := st.buckets ++ [bucketName] }

/-- Embedding of pull_population_data_to_s3: the API GET is passed in as the
Except value it produced; on success the serialized JSON body is put to
pfx.rstrip("/") + "/honolulu_population_data.json". -/
def pullPopulationDataToS3 (fp : Bytes → String) (popFetch : Except NetErr Bytes)
    (st : S3State) (bucketName pfx : String) : Except NetErr S3State :=
  match popFetch with
  | .error e => .error e
  | .ok data =>
    let s3Key := rstripSlash pfx ++ "/honolulu_population_data.json"
    .ok { st with objects := dictInsert st.objects (bucketName, s3Key) (fp data) }

/-- Directory path of the mirrored remote listing (BASE_PATH in the source). -/
def basePath : String := "/pub/time.series/pr/"

/-- Bucket name resolution of the handler: event.get("bucket-name") or
"data", where Python treats both a missing key and an empty string as
falsy. -/
def resolvedBucketName (eventBucketName : Option String) : String :=
  match eventBucketName with
  | none => "data"
  | some s => if s = "" then "data" else s

/-- Response dict returned by the handler; the body is abbreviated to the
message string inside its JSON payload. -/
structure LambdaResponse where
  statusCode : Nat
  message : String
deriving DecidableEq

/-- Embedding of handler (lines 175-230): resolve the bucket name, create the
bucket if absent, pull the population JSON (returning 500 on failure), then
run the BLS sync with prefix BASE_PATH.lstrip("/") (returning 500 on
failure), else return 200.  Each failing step returns immediately; nothing
is rolled back. -/
def handler (fp : Bytes → String) (fetch : String → Except NetErr Bytes)
    (listingResult : Except NetErr (List (String × String)))
    (listTransport : Except NetErr Unit) (popFetch : Except NetErr Bytes)
    (eventBucketName : Option String) (st0 : S3State) :
    S3State × LambdaResponse :=
  let bucketName := resolvedBucketName eventBucketName
  let st1 := createS3BucketIfNotExists st0 bucketName
  match pullPopulationDataToS3 fp popFetch st1 bucketName "population" with
  | .error _ => (st1, ⟨500, "Error pulling population data"⟩)
  | .ok st2 =>
    let out := syncBlsPrToS3 fp fetch listingResult listTransport st2.objects
      bucketName (lstripSlash basePath)
    let st3 : S3State := { st2 with objects := out.store }
    match out.error with
    | some _ => (st3, ⟨500, "Error syncing BLS PR data"⟩)
    | none => (st3, ⟨200, "Sync completed."⟩)

/-! ## Embedding of src/s3-webhook/main.py -/

/-- Exception raised by Python list.remove on a missing element. -/
inductive PyErr
  | valueError
deriving DecidableEq

/-- State of the ConnectionManager: the active_connections list. -/
structure ConnectionManager (Conn : Type) where
  active_connections : List Conn
deriving DecidableEq

/-- Embedding of ConnectionManager.connect: accept, then append. -/
def ConnectionManager.connect {Conn : Type} (m : ConnectionManager Conn)
    (ws : Conn) : ConnectionManager Conn :=
  ⟨m.active_connections ++ [ws]⟩

/-- Python list.remove: delete the first occurrence of the element, raising
ValueError when the element is absent. -/
def listRemoveFirst {Conn : Type} [DecidableEq Conn] :
    List Conn → Conn → Except PyErr (List Conn)
  | [], _ => .error .valueError
  | x :: rest, c =>
    if x = c then .ok rest
    else (listRemoveFirst rest c).map fun r => x :: r

/-- Embedding of ConnectionManager.disconnect: self.active_connections.remove(ws). -/
def ConnectionManager.disconnect {Conn : Type} [DecidableEq Conn]
    (m : ConnectionManager Conn) (ws : Conn) :
    Except PyErr (ConnectionManager Conn) :=
  (listRemoveFirst m.active_connections ws).map ConnectionManager.mk

/-- Delivery sweep of ConnectionManager.broadcast: await send_text(message) on
each registered connection in order; a raising send aborts the loop.  Returns
the connections that received the message and the exception, if one was
raised. -/
def broadcastLoop {Conn : Type} (send : Conn → String → Except NetErr Unit)
    (message : String) : List Conn → List Conn × Option NetErr
  | [] => ([], none)
  | c :: rest =>
    match send c message with
    | .ok _ =>
      let r := broadcastLoop send message rest
      (c :: r.1, r.2)
    | .error e => ([], some e)

/-- Embedding of ConnectionManager.broadcast: the method iterates
self.active_connections and never mutates it, so the manager state comes back
unchanged next to the delivery result. -/
def ConnectionManager.broadcast {Conn : Type} (m : ConnectionManager Conn)
    (send : Conn → String → Except NetErr Unit) (message : String) :
    ConnectionManager Conn × List Conn × Option NetErr :=
  (m, broadcastLoop send message m.active_connections)

/-! ## Diff sets of one sync pass

The three sets of the SyncPlan, read off from the loop conditions of
sync_bls_pr_to_s3: a remote file is uploaded unless s3_files holds its
filename with a fingerprint equal to that of the freshly downloaded content,
and a stored filename is deleted exactly when absent from the remote dict.
cont gives the bytes the GET of each url returns. -/

/-- Filenames the upload loop puts: condition of line 159 negated. -/
def toUploadSet (fp : Bytes → String) (cont : String → Bytes)
    (blsFiles s3Files : List (String × String)) : List String :=
  blsFiles.filterMap fun fu =>
    if dictGet s3Files fu.1 = some (fp (cont fu.2)) then none else some fu.1

/-- Filenames the upload loop skips as unchanged: condition of line 159. -/
def unchangedSet (fp : Bytes → String) (cont : String → Bytes)
    (blsFiles s3Files : List (String × String)) : List String :=
  blsFiles.filterMap fun fu =>
    if dictGet s3Files fu.1 = some (fp (cont fu.2)) then some fu.1 else none

/-- Filenames the delete loop removes: condition of line 168. -/
def toDeleteSet (blsFiles s3Files : List (String × String)) : List String :=
  (dictKeys s3Files).filter fun f => !(dictContains blsFiles f)

/-! ## Lemmas about the store listing -/

theorem dictGet_listS3Objects (st : Store) (b p f : String) :
    dictGet (listS3Objects st b p) f = dictGet st (b, p ++ f) := by
  induction st with
  | nil => rfl
  | cons e rest ih =>
    by_cases hc : e.1.1 = b ∧ strHasPfx e.1.2 p = true
    · have hstep : listS3Objects (e :: rest) b p =
          (stripPfx e.1.2 p, e.2) :: listS3Objects rest b p := by
        simp only [listS3Objects, List.filterMap_cons, if_pos hc]
      by_cases hk : e.1 = (b, p ++ f)
      · have hs : stripPfx e.1.2 p = f := by
          have h2 : e.1.2 = p ++ f := congrArg Prod.snd hk
          rw [h2]
          exact stripPfx_append p f
        rw [hstep]
        rw [show dictGet ((stripPfx e.1.2 p, e.2) :: listS3Objects rest b p) f =
          some e.2 from by simp [dictGet, hs]]
        rw [show dictGet (e :: rest) (b, p ++ f) = some e.2 from by
          simp [dictGet, hk]]
      · have hs : ¬stripPfx e.1.2 p = f := by
          intro hsf
          apply hk
          have h2 : e.1.2 = p ++ f := by
            rw [← hsf]
            exact eq_append_stripPfx hc.2
          exact Prod.ext hc.1 h2
        rw [hstep]
        rw [show dictGet ((stripPfx e.1.2 p, e.2) :: listS3Objects rest b p) f =
          dictGet (listS3Objects rest b p) f from by simp [dictGet, hs]]
        rw [show dictGet (e :: rest) (b, p ++ f) = dictGet rest (b, p ++ f) from by
          simp [dictGet, hk]]
        exact ih
    · have hk : ¬e.1 = (b, p ++ f) := by
        intro hkk
        apply hc
        refine ⟨congrArg Prod.fst hkk, ?_⟩
        rw [show e.1.2 = p ++ f from congrArg Prod.snd hkk]
        exact strHasPfx_append p f
      rw [show listS3Objects (e :: rest) b p = listS3Objects rest b p from by
        simp only [listS3Objects, List.filterMap_cons, if_neg hc]]
      rw [show dictGet (e :: rest) (b, p ++ f) = dictGet rest (b, p ++ f) from by
        simp [dictGet, hk]]
      exact ih

theorem mem_keys_of_dictGet_listS3Objects {st : Store} {b p f : String}
    (h : (dictGet (listS3Objects st b p) f).isSome = true) :
    f ∈ dictKeys (listS3Objects st b p) :=
  (dictGet_isSome_iff_mem_keys _ _).mp h

/-! ## Lemmas about the upload loop -/

section UploadLemmas

variable (fp : Bytes → String) (fetch : String → Except NetErr Bytes)
variable (cont : String → Bytes)
variable (s3f : List (String × String)) (b p : String)

theorem uploadLoop_append_ok (l1 l2 : List (String × String)) (st st1 : Store)
    (ops1 : List StoreOp)
    (h : uploadLoop fp fetch s3f b p l1 st = (st1, ops1, none)) :
    uploadLoop fp fetch s3f b p (l1 ++ l2) st =
      ((uploadLoop fp fetch s3f b p l2 st1).1,
        ops1 ++ (uploadLoop fp fetch s3f b p l2 st1).2.1,
        (uploadLoop fp fetch s3f b p l2 st1).2.2) := by
  induction l1 generalizing st ops1 with
  | nil =>
    rw [show uploadLoop fp fetch s3f b p [] st = (st, [], none) from rfl,
      Prod.mk.injEq, Prod.mk.injEq] at h
    obtain ⟨h1, h2, -⟩ := h
    subst h1
    subst h2
    simp
  | cons fu rest ih =>
    cases hfe : fetch fu.2 with
    | error e =>
      simp only [uploadLoop, hfe, Prod.mk.injEq] at h
      exact absurd h.2.2 (by simp)
    | ok content =>
      by_cases hskip : dictGet s3f fu.1 = some (fp content)
      · simp only [List.cons_append, uploadLoop, hfe, if_pos hskip] at h ⊢
        exact ih st ops1 h
      · simp only [List.cons_append, uploadLoop, hfe, if_neg hskip, Prod.mk.injEq] at h ⊢
        obtain ⟨h1, h2, h3⟩ := h
        have hrec : uploadLoop fp fetch s3f b p rest
            (dictInsert st (b, p ++ fu.1) (fp content)) =
            (st1,
              (uploadLoop fp fetch s3f b p rest
                (dictInsert st (b, p ++ fu.1) (fp content))).2.1, none) := by
          rw [← h1, ← h3]
        have ih2 := ih (dictInsert st (b, p ++ fu.1) (fp content)) _ hrec
        rw [show rest.append l2 = rest ++ l2 from rfl, ih2]
        refine ⟨rfl, ?_, rfl⟩
        rw [← h2]
        simp

theorem uploadLoop_noerr (l : List (String × String)) (st : Store)
    (hF : ∀ fu ∈ l, fetch fu.2 = .ok (cont fu.2)) :
    (uploadLoop fp fetch s3f b p l st).2.2 = none := by
  induction l generalizing st with
  | nil => rfl
  | cons fu rest ih =>
    have hfe : fetch fu.2 = .ok (cont fu.2) := hF fu (List.mem_cons_self fu rest)
    have hFr : ∀ gu ∈ rest, fetch gu.2 = .ok (cont gu.2) :=
      fun gu hgu => hF gu (List.mem_cons_of_mem fu hgu)
    by_cases hskip : dictGet s3f fu.1 = some (fp (cont fu.2))
    · simp only [uploadLoop, hfe, if_pos hskip]
      exact ih _ hFr
    · simp only [uploadLoop, hfe, if_neg hskip]
      exact ih _ hFr

theorem uploadLoop_ops (l : List (String × String)) (st : Store)
    (hF : ∀ fu ∈ l, fetch fu.2 = .ok (cont fu.2)) :
    (uploadLoop fp fetch s3f b p l st).2.1 =
      l.filterMap fun fu =>
        if dictGet s3f fu.1 = some (fp (cont fu.2)) then none
        else some (StoreOp.put b (p ++ fu.1)) := by
  induction l generalizing st with
  | nil => rfl
  | cons fu rest ih =>
    have hfe : fetch fu.2 = .ok (cont fu.2) := hF fu (List.mem_cons_self fu rest)
    have hFr : ∀ gu ∈ rest, fetch gu.2 = .ok (cont gu.2) :=
      fun gu hgu => hF gu (List.mem_cons_of_mem fu hgu)
    by_cases hskip : dictGet s3f fu.1 = some (fp (cont fu.2))
    · simp only [uploadLoop, hfe, if_pos hskip, List.filterMap_cons]
      exact ih _ hFr
    · simp only [uploadLoop, hfe, if_neg hskip, List.filterMap_cons]
      rw [ih _ hFr]

theorem uploadLoop_frame (l : List (String × String)) (st : Store) (key : StoreKey)
    (hk : ∀ fu ∈ l, key ≠ (b, p ++ fu.1)) :
    dictGet (uploadLoop fp fetch s3f b p l st).1 key = dictGet st key := by
  induction l generalizing st with
  | nil => rfl
  | cons fu rest ih =>
    have hkr : ∀ gu ∈ rest, key ≠ (b, p ++ gu.1) :=
      fun gu hgu => hk gu (List.mem_cons_of_mem fu hgu)
    cases hfe : fetch fu.2 with
    | error e => simp [uploadLoop, hfe]
    | ok content =>
      by_cases hskip : dictGet s3f fu.1 = some (fp content)
      · simp only [uploadLoop, hfe, if_pos hskip]
        exact ih _ hkr
      · simp only [uploadLoop, hfe, if_neg hskip]
        rw [ih _ hkr]
        exact dictGet_insert_ne st _ key _ (hk fu (List.mem_cons_self fu rest))

theorem storeKey_ne_of_ne {b p x y : String} (h : x ≠ y) :
    ((b, p ++ x) : StoreKey) ≠ (b, p ++ y) := by
  intro he
  exact h (append_left_cancel_str (congrArg Prod.snd he))

theorem uploadLoop_get_final (l : List (String × String)) (st : Store)
    (hN : (l.map Prod.fst).Nodup)
    (hF : ∀ fu ∈ l, fetch fu.2 = .ok (cont fu.2))
    (hPre : ∀ fu ∈ l, dictGet s3f fu.1 = some (fp (cont fu.2)) →
      dictGet st (b, p ++ fu.1) = some (fp (cont fu.2))) :
    ∀ fu ∈ l, dictGet (uploadLoop fp fetch s3f b p l st).1 (b, p ++ fu.1) =
      some (fp (cont fu.2)) := by
  induction l generalizing st with
  | nil => intro fu hfu; cases hfu
  | cons fu rest ih =>
    have hfe : fetch fu.2 = .ok (cont fu.2) := hF fu (List.mem_cons_self fu rest)
    have hFr : ∀ gu ∈ rest, fetch gu.2 = .ok (cont gu.2) :=
      fun gu hgu => hF gu (List.mem_cons_of_mem fu hgu)
    have hNr : (rest.map Prod.fst).Nodup := (List.nodup_cons.mp hN).2
    have hheadNe : ∀ gu ∈ rest, fu.1 ≠ gu.1 := by
      intro gu hgu hfg
      exact (List.nodup_cons.mp hN).1 (hfg ▸ List.mem_map_of_mem Prod.fst hgu)
    intro gu hgu
    rcases List.mem_cons.mp hgu with hg1 | hg1
    · subst hg1
      by_cases hskip : dictGet s3f gu.1 = some (fp (cont gu.2))
      · simp only [uploadLoop, hfe, if_pos hskip]
        rw [uploadLoop_frame fp fetch s3f b p rest st _
          (fun hu hhu => storeKey_ne_of_ne (hheadNe hu hhu))]
        exact hPre gu (List.mem_cons_self gu rest) hskip
      · simp only [uploadLoop, hfe, if_neg hskip]
        rw [uploadLoop_frame fp fetch s3f b p rest _ _
          (fun hu hhu => storeKey_ne_of_ne (hheadNe hu hhu))]
        exact dictGet_insert_self st _ _
    · by_cases hskip : dictGet s3f fu.1 = some (fp (cont fu.2))
      · simp only [uploadLoop, hfe, if_pos hskip]
        exact ih st hNr hFr
          (fun hu hhu hs => hPre hu (List.mem_cons_of_mem fu hhu) hs) gu hg1
      · simp only [uploadLoop, hfe, if_neg hskip]
        refine ih _ hNr hFr ?_ gu hg1
        intro hu hhu hs
        rw [dictGet_insert_ne st _ _ _ (storeKey_ne_of_ne (hheadNe hu hhu)).symm]
        exact hPre hu (List.mem_cons_of_mem fu hhu) hs

theorem uploadLoop_allskip (l : List (String × String)) (st : Store)
    (hF : ∀ fu ∈ l, fetch fu.2 = .ok (cont fu.2))
    (hS : ∀ fu ∈ l, dictGet s3f fu.1 = some (fp (cont fu.2))) :
    uploadLoop fp fetch s3f b p l st = (st, [], none) := by
  induction l with
  | nil => rfl
  | cons fu rest ih =>
    have hfe : fetch fu.2 = .ok (cont fu.2) := hF fu (List.mem_cons_self fu rest)
    simp only [uploadLoop, hfe, if_pos (hS fu (List.mem_cons_self fu rest))]
    exact ih (fun gu hgu => hF gu (List.mem_cons_of_mem fu hgu))
      (fun gu hgu => hS gu (List.mem_cons_of_mem fu hgu))

end UploadLemmas

/-! ## Lemmas about the delete loop -/

section DeleteLemmas

variable (blsFiles : List (String × String)) (b p : String)

theorem deleteLoop_ops (names : List String) (st : Store) :
    (deleteLoop blsFiles b p names st).2 =
      names.filterMap fun f =>
        if dictContains blsFiles f then none
        else some (StoreOp.delete b (p ++ f)) := by
  induction names generalizing st with
  | nil => rfl
  | cons f rest ih =>
    by_cases hcf : dictContains blsFiles f
    · simp only [deleteLoop, if_pos hcf, List.filterMap_cons, hcf]
      exact ih _
    · simp only [deleteLoop, if_neg hcf, List.filterMap_cons]
      rw [ih _]

theorem deleteLoop_none (names : List String) (st : Store) (key : StoreKey)
    (h : dictGet st key = none) :
    dictGet (deleteLoop blsFiles b p names st).1 key = none := by
  induction names generalizing st with
  | nil => exact h
  | cons f rest ih =>
    by_cases hcf : dictContains blsFiles f
    · simp only [deleteLoop, if_pos hcf]
      exact ih _ h
    · simp only [deleteLoop, if_neg hcf]
      exact ih _ (dictGet_none_of_filter _ h)

theorem deleteLoop_frame (names : List String) (st : Store) (key : StoreKey)
    (hk : ∀ f ∈ names, key ≠ (b, p ++ f)) :
    dictGet (deleteLoop blsFiles b p names st).1 key = dictGet st key := by
  induction names generalizing st with
  | nil => rfl
  | cons f rest ih =>
    have hkr : ∀ g ∈ rest, key ≠ (b, p ++ g) :=
      fun g hg => hk g (List.mem_cons_of_mem f hg)
    by_cases hcf : dictContains blsFiles f
    · simp only [deleteLoop, if_pos hcf]
      exact ih _ hkr
    · simp only [deleteLoop, if_neg hcf]
      rw [ih _ hkr]
      exact dictGet_remove_ne st _ key (hk f (List.mem_cons_self f rest))

theorem deleteLoop_preserve_kept (names : List String) (st : Store) (f : String)
    (hcf : dictContains blsFiles f = true) :
    dictGet (deleteLoop blsFiles b p names st).1 (b, p ++ f) =
      dictGet st (b, p ++ f) := by
  induction names generalizing st with
  | nil => rfl
  | cons g rest ih =>
    by_cases hcg : dictContains blsFiles g
    · simp only [deleteLoop, if_pos hcg]
      exact ih _
    · have hfg : f ≠ g := by
        intro hh
        rw [hh] at hcf
        exact absurd hcf (by simp [hcg])
      simp only [deleteLoop, if_neg hcg]
      rw [ih _]
      exact dictGet_remove_ne st _ _ (storeKey_ne_of_ne hfg)

theorem deleteLoop_kill (names : List String) (st : Store) (f : String)
    (hmem : f ∈ names) (hcf : dictContains blsFiles f = false) :
    dictGet (deleteLoop blsFiles b p names st).1 (b, p ++ f) = none := by
  induction names generalizing st with
  | nil => cases hmem
  | cons g rest ih =>
    rcases List.mem_cons.mp hmem with h1 | h1
    · subst h1
      simp only [deleteLoop, hcf, Bool.false_eq_true, if_false]
      exact deleteLoop_none blsFiles b p rest _ _ (dictGet_remove_self st _)
    · by_cases hcg : dictContains blsFiles g
      · simp only [deleteLoop, if_pos hcg]
        exact ih _ h1
      · simp only [deleteLoop, if_neg hcg]
        exact ih _ h1

theorem deleteLoop_allskip (names : List String) (st : Store)
    (h : ∀ f ∈ names, dictContains blsFiles f = true) :
    deleteLoop blsFiles b p names st = (st, []) := by
  induction names with
  | nil => rfl
  | cons f rest ih =>
    simp only [deleteLoop, if_pos (h f (List.mem_cons_self f rest))]
    exact ih fun g hg => h g (List.mem_cons_of_mem f hg)

end DeleteLemmas

/-! ## Lemmas about the listing parser -/

section ListingLemmas

variable (u : String → String → String) (root : String)

theorem listBlsFilesGo_get (hrefs : List (Option String))
    (files : List (String × String)) (name : String) :
    dictGet (listBlsFilesGo u root hrefs files) name =
      match lastKeptHref hrefs name with
      | some href => some (u root href)
      | none => dictGet files name := by
  induction hrefs generalizing files with
  | nil => rfl
  | cons h rest ih =>
    rw [show listBlsFilesGo u root (h :: rest) files =
      listBlsFilesGo u root rest (listBlsFilesStep u root files h) from rfl]
    rw [ih (listBlsFilesStep u root files h)]
    cases hrest : lastKeptHref rest name with
    | some r =>
      rw [show lastKeptHref (h :: rest) name = some r from by
        simp only [lastKeptHref, hrest]]
    | none =>
      cases h with
      | none =>
        rw [show lastKeptHref (none :: rest) name = none from by
          simp only [lastKeptHref, hrest]]
        rfl
      | some href =>
        by_cases hkeep : href = "" ∨ endsWithSlash href = true ∨ startsWithQuery href = true
        · rw [show lastKeptHref (some href :: rest) name = none from by
            simp only [lastKeptHref, hrest, if_pos hkeep]]
          rw [show listBlsFilesStep u root files (some href) = files from by
            simp only [listBlsFilesStep, if_pos hkeep]]
        · by_cases hbase : baseName href = name
          · rw [show lastKeptHref (some href :: rest) name = some href from by
              simp only [lastKeptHref, hrest, if_neg hkeep, if_pos hbase]]
            rw [show listBlsFilesStep u root files (some href) =
              dictInsert files (baseName href) (u root href) from by
              simp only [listBlsFilesStep, if_neg hkeep]]
            rw [hbase]
            exact dictGet_insert_self files name (u root href)
          · rw [show lastKeptHref (some href :: rest) name = none from by
              simp only [lastKeptHref, hrest, if_neg hkeep, if_neg hbase]]
            rw [show listBlsFilesStep u root files (some href) =
              dictInsert files (baseName href) (u root href) from by
              simp only [listBlsFilesStep, if_neg hkeep]]
            exact dictGet_insert_ne files _ name _ fun hh => hbase hh.symm

theorem listBlsFiles_get (hrefs : List (Option String)) (name : String) :
    dictGet (listBlsFiles u root hrefs) name =
      (lastKeptHref hrefs name).map (u root) := by
  rw [listBlsFiles, listBlsFilesGo_get]
  cases lastKeptHref hrefs name <;> rfl

theorem lastKeptHref_spec {hrefs : List (Option String)} {name href : String}
    (h : lastKeptHref hrefs name = some href) :
    (some href) ∈ hrefs ∧
      ¬(href = "" ∨ endsWithSlash href = true ∨ startsWithQuery href = true) ∧
      baseName href = name := by
  induction hrefs with
  | nil => cases h
  | cons g rest ih =>
    cases hrest : lastKeptHref rest name with
    | some r =>
      rw [show lastKeptHref (g :: rest) name = some r from by
        simp only [lastKeptHref, hrest]] at h
      obtain ⟨h1, h2, h3⟩ := ih (hrest.trans (congrArg some (Option.some.inj h)))
      exact ⟨List.mem_cons_of_mem g h1, h2, h3⟩
    | none =>
      cases g with
      | none =>
        rw [show lastKeptHref (none :: rest) name = none from by
          simp only [lastKeptHref, hrest]] at h
        cases h
      | some g0 =>
        by_cases hkeep : g0 = "" ∨ endsWithSlash g0 = true ∨ startsWithQuery g0 = true
        · rw [show lastKeptHref (some g0 :: rest) name = none from by
            simp only [lastKeptHref, hrest, if_pos hkeep]] at h
          cases h
        · by_cases hbase : baseName g0 = name
          · rw [show lastKeptHref (some g0 :: rest) name = some g0 from by
              simp only [lastKeptHref, hrest, if_neg hkeep, if_pos hbase]] at h
            cases Option.some.inj h
            exact ⟨List.mem_cons_self _ _, hkeep, hbase⟩
          · rw [show lastKeptHref (some g0 :: rest) name = none from by
              simp only [lastKeptHref, hrest, if_neg hkeep, if_neg hbase]] at h
            cases h

theorem lastKeptHref_isSome_of_mem {hrefs : List (Option String)} {name href : String}
    (hm : (some href) ∈ hrefs)
    (hk : ¬(href = "" ∨ endsWithSlash href = true ∨ startsWithQuery href = true))
    (hb : baseName href = name) :
    (lastKeptHref hrefs name).isSome = true := by
  induction hrefs with
  | nil => cases hm
  | cons g rest ih =>
    cases hrest : lastKeptHref rest name with
    | some r =>
      rw [show lastKeptHref (g :: rest) name = some r from by
        simp only [lastKeptHref, hrest]]
      rfl
    | none =>
      rcases List.mem_cons.mp hm with h1 | h1
      · subst h1
        rw [show lastKeptHref (some href :: rest) name = some href from by
          simp only [lastKeptHref, hrest, if_neg hk, if_pos hb]]
        rfl
      · have hsome := ih h1
        rw [hrest] at hsome
        cases hsome

end ListingLemmas

/-! ## Lemmas about the broadcaster -/

section BroadcastLemmas

variable {Conn : Type}

theorem broadcastLoop_fail (send : Conn → String → Except NetErr Unit)
    (message : String) (pre : List Conn) (c : Conn) (post : List Conn) (e : NetErr)
    (hpre : ∀ x ∈ pre, send x message = .ok ())
    (hc : send c message = .error e) :
    broadcastLoop send message (pre ++ c :: post) = (pre, some e) := by
  induction pre with
  | nil =>
    simp only [List.nil_append, broadcastLoop, hc]
  | cons x rest ih =>
    have hx : send x message = .ok () := hpre x (List.mem_cons_self x rest)
    simp only [List.cons_append, broadcastLoop, hx]
    have ih2 := ih fun y hy => hpre y (List.mem_cons_of_mem x hy)
    rw [show rest.append (c :: post) = rest ++ c :: post from rfl, ih2]

theorem broadcastLoop_all_ok (send : Conn → String → Except NetErr Unit)
    (message : String) (l : List Conn)
    (h : ∀ x ∈ l, send x message = .ok ()) :
    broadcastLoop send message l = (l, none) := by
  induction l with
  | nil => rfl
  | cons x rest ih =>
    simp only [broadcastLoop, h x (List.mem_cons_self x rest)]
    rw [ih fun y hy => h y (List.mem_cons_of_mem x hy)]

theorem listRemoveFirst_not_mem [DecidableEq Conn] (l : List Conn) (c : Conn)
    (h : c ∉ l) : listRemoveFirst l c = .error .valueError := by
  induction l with
  | nil => rfl
  | cons x rest ih =>
    have hx : ¬x = c := fun hh => h (hh ▸ List.mem_cons_self x rest)
    simp only [listRemoveFirst, if_neg hx,
      ih fun hh => h (List.mem_cons_of_mem x hh)]
    rfl

end BroadcastLemmas

/-! ## Sync-level composition lemmas -/

section SyncLemmas

variable (fp : Bytes → String) (fetch : String → Except NetErr Bytes)
variable (cont : String → Bytes)

theorem filter_map_eq_filterMap {A B : Type} (l : List A) (q : A → Bool) (g : A → B) :
    (l.filter q).map g = l.filterMap fun a => if q a then some (g a) else none := by
  induction l with
  | nil => rfl
  | cons x xs ih => by_cases h : q x <;> simp [List.filter, h, ih]

theorem toUploadSet_map_put (bls s3f : List (String × String)) (b p : String) :
    (toUploadSet fp cont bls s3f).map (fun f => StoreOp.put b (p ++ f)) =
      bls.filterMap fun fu =>
        if dictGet s3f fu.1 = some (fp (cont fu.2)) then none
        else some (StoreOp.put b (p ++ fu.1)) := by
  rw [toUploadSet, List.map_filterMap]
  congr 1
  funext fu
  by_cases h : dictGet s3f fu.1 = some (fp (cont fu.2)) <;> simp [h]

theorem toDeleteSet_map_delete (bls s3f : List (String × String)) (b p : String) :
    (toDeleteSet bls s3f).map (fun f => StoreOp.delete b (p ++ f)) =
      (dictKeys s3f).filterMap fun f =>
        if dictContains bls f then none else some (StoreOp.delete b (p ++ f)) := by
  rw [toDeleteSet, filter_map_eq_filterMap]
  congr 1
  funext f
  by_cases h : dictContains bls f <;> simp [h]

theorem syncBlsPrToS3_eq_of_noerr (bls : List (String × String)) (st : Store)
    (b p : String)
    (hup : (uploadLoop fp fetch (listS3Objects st b p) b p bls st).2.2 = none) :
    syncBlsPrToS3 fp fetch (.ok bls) (.ok ()) st b p =
      ⟨(deleteLoop bls b p (dictKeys (listS3Objects st b p))
          (uploadLoop fp fetch (listS3Objects st b p) b p bls st).1).1,
        (uploadLoop fp fetch (listS3Objects st b p) b p bls st).2.1 ++
          (deleteLoop bls b p (dictKeys (listS3Objects st b p))
            (uploadLoop fp fetch (listS3Objects st b p) b p bls st).1).2,
        none⟩ := by
  simp only [syncBlsPrToS3, hup]

theorem syncBlsPrToS3_eq_of_err (bls : List (String × String)) (st : Store)
    (b p : String) (e : NetErr)
    (hup : (uploadLoop fp fetch (listS3Objects st b p) b p bls st).2.2 = some e) :
    syncBlsPrToS3 fp fetch (.ok bls) (.ok ()) st b p =
      ⟨(uploadLoop fp fetch (listS3Objects st b p) b p bls st).1,
        (uploadLoop fp fetch (listS3Objects st b p) b p bls st).2.1,
        some e⟩ := by
  simp only [syncBlsPrToS3, hup]

theorem sync_ops_allok (bls : List (String × String)) (st : Store) (b p : String)
    (hF : ∀ fu ∈ bls, fetch fu.2 = .ok (cont fu.2)) :
    (syncBlsPrToS3 fp fetch (.ok bls) (.ok ()) st b p).ops =
      (toUploadSet fp cont bls (listS3Objects st b p)).map
        (fun f => StoreOp.put b (p ++ f)) ++
      (toDeleteSet bls (listS3Objects st b p)).map
        (fun f => StoreOp.delete b (p ++ f)) := by
  have hup := uploadLoop_noerr fp fetch cont (listS3Objects st b p) b p bls st hF
  rw [syncBlsPrToS3_eq_of_noerr fp fetch bls st b p hup]
  rw [toUploadSet_map_put, toDeleteSet_map_delete]
  rw [uploadLoop_ops fp fetch cont (listS3Objects st b p) b p bls st hF]
  rw [deleteLoop_ops bls b p (dictKeys (listS3Objects st b p)) _]

theorem sync_error_allok (bls : List (String × String)) (st : Store) (b p : String)
    (hF : ∀ fu ∈ bls, fetch fu.2 = .ok (cont fu.2)) :
    (syncBlsPrToS3 fp fetch (.ok bls) (.ok ()) st b p).error = none := by
  have hup := uploadLoop_noerr fp fetch cont (listS3Objects st b p) b p bls st hF
  rw [syncBlsPrToS3_eq_of_noerr fp fetch bls st b p hup]

theorem sync_frame (listingResult : Except NetErr (List (String × String)))
    (listTransport : Except NetErr Unit) (st : Store) (b p : String)
    (key : StoreKey) (hk : strHasPfx key.2 p = false) :
    dictGet (syncBlsPrToS3 fp fetch listingResult listTransport st b p).store key =
      dictGet st key := by
  have hkey : ∀ f : String, key ≠ (b, p ++ f) := by
    intro f hke
    rw [show key.2 = p ++ f from congrArg Prod.snd hke, strHasPfx_append] at hk
    cases hk
  cases listingResult with
  | error e => rfl
  | ok bls =>
    cases listTransport with
    | error e => rfl
    | ok uu =>
      have hupframe := uploadLoop_frame fp fetch (listS3Objects st b p) b p bls st key
        (fun fu _ => hkey fu.1)
      cases hup : (uploadLoop fp fetch (listS3Objects st b p) b p bls st).2.2 with
      | some e =>
        rw [syncBlsPrToS3_eq_of_err fp fetch bls st b p e hup]
        exact hupframe
      | none =>
        rw [syncBlsPrToS3_eq_of_noerr fp fetch bls st b p hup]
        rw [deleteLoop_frame bls b p _ _ key (fun f _ => hkey f)]
        exact hupframe

end SyncLemmas

/-! ## Membership characterizations of the diff sets -/

theorem mem_toUploadSet_iff (fp : Bytes → String) (cont : String → Bytes)
    (bls s3f : List (String × String)) (f : String) :
    f ∈ toUploadSet fp cont bls s3f ↔
      ∃ fu, fu ∈ bls ∧ fu.1 = f ∧ ¬dictGet s3f fu.1 = some (fp (cont fu.2)) := by
  rw [toUploadSet, List.mem_filterMap]
  constructor
  · rintro ⟨fu, hm, hg⟩
    by_cases hc : dictGet s3f fu.1 = some (fp (cont fu.2))
    · rw [if_pos hc] at hg
      cases hg
    · rw [if_neg hc] at hg
      exact ⟨fu, hm, Option.some.inj hg, hc⟩
  · rintro ⟨fu, hm, hf, hc⟩
    exact ⟨fu, hm, by rw [if_neg hc, hf]⟩

theorem mem_unchangedSet_iff (fp : Bytes → String) (cont : String → Bytes)
    (bls s3f : List (String × String)) (f : String) :
    f ∈ unchangedSet fp cont bls s3f ↔
      ∃ fu, fu ∈ bls ∧ fu.1 = f ∧ dictGet s3f fu.1 = some (fp (cont fu.2)) := by
  rw [unchangedSet, List.mem_filterMap]
  constructor
  · rintro ⟨fu, hm, hg⟩
    by_cases hc : dictGet s3f fu.1 = some (fp (cont fu.2))
    · rw [if_pos hc] at hg
      exact ⟨fu, hm, Option.some.inj hg, hc⟩
    · rw [if_neg hc] at hg
      cases hg
  · rintro ⟨fu, hm, hf, hc⟩
    exact ⟨fu, hm, by rw [if_pos hc, hf]⟩

theorem mem_toDeleteSet_iff (bls s3f : List (String × String)) (f : String) :
    f ∈ toDeleteSet bls s3f ↔ f ∈ dictKeys s3f ∧ ¬f ∈ dictKeys bls := by
  rw [toDeleteSet, List.mem_filter]
  constructor
  · rintro ⟨h1, h2⟩
    refine ⟨h1, fun hm => ?_⟩
    rw [(dictContains_iff_mem_keys bls f).mpr hm] at h2
    cases h2
  · rintro ⟨h1, h2⟩
    refine ⟨h1, ?_⟩
    cases hc : dictContains bls f
    · rfl
    · exact absurd ((dictContains_iff_mem_keys bls f).mp hc) h2

theorem mem_keys_of_mem_toUploadSet {fp : Bytes → String} {cont : String → Bytes}
    {bls s3f : List (String × String)} {f : String}
    (h : f ∈ toUploadSet fp cont bls s3f) : f ∈ dictKeys bls := by
  obtain ⟨fu, hm, hf, -⟩ := (mem_toUploadSet_iff fp cont bls s3f f).mp h
  exact hf ▸ List.mem_map_of_mem Prod.fst hm

theorem mem_keys_of_mem_unchangedSet {fp : Bytes → String} {cont : String → Bytes}
    {bls s3f : List (String × String)} {f : String}
    (h : f ∈ unchangedSet fp cont bls s3f) : f ∈ dictKeys bls := by
  obtain ⟨fu, hm, hf, -⟩ := (mem_unchangedSet_iff fp cont bls s3f f).mp h
  exact hf ▸ List.mem_map_of_mem Prod.fst hm

/-! ## Concrete fixtures used by witness theorems -/

/-- Fingerprint function used in witnesses: the decimal length of the bytes. -/
def fpW : Bytes → String := fun bs => toString bs.length

/-- Fetch function used in witnesses: the url "ubad" raises, others return [7]. -/
def fetchW : String → Except NetErr Bytes := fun url =>
  if url = "ubad" then .error .connectError else .ok [7]

/-- Content function matching fetchW on its successful urls. -/
def contW : String → Bytes := fun _ => [7]

/-- Send function used in witnesses: connection 1 raises, others succeed. -/
def sendW : Nat → String → Except NetErr Unit := fun c _ =>
  if c = 1 then .error .connectError else .ok ()

/-- Url-joining function used in witnesses. -/
def uW : String → String → String := fun root href => root ++ "/" ++ href

/-- Listing document used in witnesses: one file link, one directory link, one
anchor without href, one sort link, one empty href. -/
def hrefsW : List (Option String) :=
  [some "pr/pr.data.0", some "sub/", none, some "?C=M;O=A", some ""]

/-! ## Claims -/

/-- Claim C2: when fetching the remote listing or the store listing raises, the
sync call surfaces that exception and issues no put and no delete, leaving the
store contents exactly as they were. Both listings are fetched before the
first mutation, so either failure aborts the sync with no partial mutation. -/
theorem claim_C2_abort_on_listing_failure (fp : Bytes → String)
    (fetch : String → Except NetErr Bytes)
    (listingResult : Except NetErr (List (String × String)))
    (listTransport : Except NetErr Unit) (st : Store) (b p : String)
    (h : (∃ e, listingResult = .error e) ∨ (∃ e, listTransport = .error e)) :
    (syncBlsPrToS3 fp fetch listingResult listTransport st b p).store = st ∧
    (syncBlsPrToS3 fp fetch listingResult listTransport st b p).ops = [] ∧
    (syncBlsPrToS3 fp fetch listingResult listTransport st b p).error.isSome = true := by
  rcases h with ⟨e, he⟩ | ⟨e, he⟩
  · subst he
    exact ⟨rfl, rfl, rfl⟩
  · subst he
    cases listingResult with
    | error e2 => exact ⟨rfl, rfl, rfl⟩
    | ok bls => exact ⟨rfl, rfl, rfl⟩

/-- Witness for claim C2 at a failing listing fetch over a one-object store. -/
theorem claim_C2_witness :
    (syncBlsPrToS3 fpW fetchW (.error .connectError) (.ok ())
      [(("data", "k"), "x")] "data" "p/").store = [(("data", "k"), "x")] ∧
    (syncBlsPrToS3 fpW fetchW (.error .connectError) (.ok ())
      [(("data", "k"), "x")] "data" "p/").ops = [] ∧
    (syncBlsPrToS3 fpW fetchW (.error .connectError) (.ok ())
      [(("data", "k"), "x")] "data" "p/").error.isSome = true :=
  claim_C2_abort_on_listing_failure fpW fetchW (.error .connectError) (.ok ())
    [(("data", "k"), "x")] "data" "p/" (Or.inl ⟨.connectError, rfl⟩)

/-- Claim C3 counterexample: with remote files f1 and f2 where the GET of f1
raises, the code issues no put at all — in particular none for f2, which,
being absent from the empty store, the claim requires to still be attempted —
and the sync call raises instead of returning success with an errors list. -/
theorem claim_C3_counterexample :
    (syncBlsPrToS3 fpW fetchW (.ok [("f1", "ubad"), ("f2", "u2")]) (.ok ())
      [] "data" "p/").ops = [] ∧
    (syncBlsPrToS3 fpW fetchW (.ok [("f1", "ubad"), ("f2", "u2")]) (.ok ())
      [] "data" "p/").error = some .connectError := ⟨rfl, rfl⟩

/-- Claim C3 amended: sync_bls_pr_to_s3 has no per-file error handling.  A
failure fetching one file propagates out of the call at once: the files before
the failing one in the remote dict have been uploaded per the usual rule, the
files after it are never attempted, no deletion is performed, and no errors
list is produced. -/
theorem claim_C3_amended_fail_fast (fp : Bytes → String)
    (fetch : String → Except NetErr Bytes) (cont : String → Bytes)
    (pre post : List (String × String)) (bf bu : String) (e : NetErr)
    (st : Store) (b p : String)
    (hpre : ∀ fu ∈ pre, fetch fu.2 = .ok (cont fu.2))
    (hbad : fetch bu = .error e) :
    (syncBlsPrToS3 fp fetch (.ok (pre ++ (bf, bu) :: post)) (.ok ())
      st b p).error = some e ∧
    (syncBlsPrToS3 fp fetch (.ok (pre ++ (bf, bu) :: post)) (.ok ())
      st b p).ops =
      (toUploadSet fp cont pre (listS3Objects st b p)).map
        (fun f => StoreOp.put b (p ++ f)) ∧
    ∀ b2 k2, StoreOp.delete b2 k2 ∉
      (syncBlsPrToS3 fp fetch (.ok (pre ++ (bf, bu) :: post)) (.ok ())
        st b p).ops := by
  have hupPre : uploadLoop fp fetch (listS3Objects st b p) b p pre st =
      ((uploadLoop fp fetch (listS3Objects st b p) b p pre st).1,
        (uploadLoop fp fetch (listS3Objects st b p) b p pre st).2.1, none) := by
    have h0 := uploadLoop_noerr fp fetch cont (listS3Objects st b p) b p pre st hpre
    rw [← h0]
  have happ := uploadLoop_append_ok fp fetch (listS3Objects st b p) b p pre
    ((bf, bu) :: post) st _ _ hupPre
  have hbadStep : uploadLoop fp fetch (listS3Objects st b p) b p ((bf, bu) :: post)
      (uploadLoop fp fetch (listS3Objects st b p) b p pre st).1 =
      ((uploadLoop fp fetch (listS3Objects st b p) b p pre st).1, [], some e) := by
    simp only [uploadLoop, hbad]
  rw [hbadStep] at happ
  have hfull : (uploadLoop fp fetch (listS3Objects st b p) b p
      (pre ++ (bf, bu) :: post) st).2.2 = some e := by
    rw [happ]
  have hsync := syncBlsPrToS3_eq_of_err fp fetch (pre ++ (bf, bu) :: post) st b p e hfull
  have hops : (uploadLoop fp fetch (listS3Objects st b p) b p
      (pre ++ (bf, bu) :: post) st).2.1 =
      (toUploadSet fp cont pre (listS3Objects st b p)).map
        (fun f => StoreOp.put b (p ++ f)) := by
    rw [happ]
    show (uploadLoop fp fetch (listS3Objects st b p) b p pre st).2.1 ++ [] = _
    rw [List.append_nil,
      uploadLoop_ops fp fetch cont (listS3Objects st b p) b p pre st hpre,
      toUploadSet_map_put]
  refine ⟨?_, ?_, ?_⟩
  · rw [hsync]
  · rw [hsync]
    exact hops
  · intro b2 k2 hmem
    rw [hsync] at hmem
    have hmem2 : StoreOp.delete b2 k2 ∈
        (toUploadSet fp cont pre (listS3Objects st b p)).map
          (fun f => StoreOp.put b (p ++ f)) := by
      rw [← hops]
      exact hmem
    obtain ⟨f, -, hfe⟩ := List.mem_map.mp hmem2
    cases hfe

/-- Witness for the amended claim C3: one good file before, one after the
failing one. -/
theorem claim_C3_amended_witness :
    (syncBlsPrToS3 fpW fetchW (.ok ([("f0", "u2")] ++ ("f1", "ubad") :: [("f2", "u2")]))
      (.ok ()) [] "data" "p/").error = some .connectError ∧
    (syncBlsPrToS3 fpW fetchW (.ok ([("f0", "u2")] ++ ("f1", "ubad") :: [("f2", "u2")]))
      (.ok ()) [] "data" "p/").ops =
      (toUploadSet fpW contW [("f0", "u2")] (listS3Objects [] "data" "p/")).map
        (fun f => StoreOp.put "data" ("p/" ++ f)) ∧
    ∀ b2 k2, StoreOp.delete b2 k2 ∉
      (syncBlsPrToS3 fpW fetchW (.ok ([("f0", "u2")] ++ ("f1", "ubad") :: [("f2", "u2")]))
        (.ok ()) [] "data" "p/").ops :=
  claim_C3_amended_fail_fast fpW fetchW contW [("f0", "u2")] [("f2", "u2")]
    "f1" "ubad" .connectError [] "data" "p/"
    (by
      intro fu hfu
      rw [List.mem_singleton.mp hfu]
      rfl)
    rfl

/-- Claim C4 counterexample: broadcasting to the three registered connections
0, 1, 2 where sending to connection 1 raises delivers to connection 0 only —
one delivery, not the two the claim requires — and removes nothing from the
registry: the exception propagates and the failing connection stays
registered. -/
theorem claim_C4_counterexample :
    (ConnectionManager.broadcast (⟨[0, 1, 2]⟩ : ConnectionManager Nat) sendW "m").2.1 = [0] ∧
    (ConnectionManager.broadcast (⟨[0, 1, 2]⟩ : ConnectionManager Nat) sendW "m").2.2 =
      some .connectError ∧
    (ConnectionManager.broadcast (⟨[0, 1, 2]⟩ : ConnectionManager Nat) sendW "m").1 =
      ⟨[0, 1, 2]⟩ := ⟨rfl, rfl, rfl⟩

/-- Claim C4 amended: ConnectionManager.broadcast has no per-connection error
handling.  A send failure on one connection aborts the loop: exactly the
connections registered before the failing one receive the message, the
exception propagates to the caller, and the failing connection is not removed
— the registry is unchanged. -/
theorem claim_C4_amended_broadcast_aborts {Conn : Type}
    (send : Conn → String → Except NetErr Unit) (message : String)
    (pre : List Conn) (c : Conn) (post : List Conn) (e : NetErr)
    (hpre : ∀ x ∈ pre, send x message = .ok ())
    (hc : send c message = .error e) :
    ConnectionManager.broadcast ⟨pre ++ c :: post⟩ send message =
      (⟨pre ++ c :: post⟩, pre, some e) := by
  show ((⟨pre ++ c :: post⟩ : ConnectionManager Conn),
      broadcastLoop send message (pre ++ c :: post)) =
    ((⟨pre ++ c :: post⟩ : ConnectionManager Conn), pre, some e)
  rw [broadcastLoop_fail send message pre c post e hpre hc]

/-- Witness for the amended claim C4 with connections 0, 1, 2 and connection 1
failing. -/
theorem claim_C4_amended_witness :
    ConnectionManager.broadcast (⟨[0] ++ 1 :: [2]⟩ : ConnectionManager Nat) sendW "m" =
      (⟨[0] ++ 1 :: [2]⟩, [0], some .connectError) :=
  claim_C4_amended_broadcast_aborts sendW "m" [0] 1 [2] .connectError
    (by
      intro x hx
      rw [List.mem_singleton.mp hx]
      rfl)
    rfl

/-- Claim C8 counterexample: after connection 5 is removed from the registry,
calling disconnect on it again raises ValueError (list.remove on a missing
element) instead of being a no-op. -/
theorem claim_C8_counterexample :
    ConnectionManager.disconnect (⟨[5]⟩ : ConnectionManager Nat) 5 = .ok ⟨[]⟩ ∧
    ConnectionManager.disconnect (⟨[]⟩ : ConnectionManager Nat) 5 =
      .error .valueError := ⟨rfl, rfl⟩

/-- Claim C8 amended: disconnect on a handle absent from the registry (already
removed, or never registered) raises ValueError; removal is not idempotent. -/
theorem claim_C8_amended_disconnect_raises {Conn : Type} [DecidableEq Conn]
    (m : ConnectionManager Conn) (c : Conn) (h : c ∉ m.active_connections) :
    m.disconnect c = .error .valueError := by
  show (listRemoveFirst m.active_connections c).map ConnectionManager.mk = _
  rw [listRemoveFirst_not_mem m.active_connections c h]
  rfl

/-- Witness for the amended claim C8 on a registry not containing the handle. -/
theorem claim_C8_amended_witness :
    ConnectionManager.disconnect (⟨[2]⟩ : ConnectionManager Nat) 3 =
      .error .valueError :=
  claim_C8_amended_disconnect_raises ⟨[2]⟩ 3 (by decide)

/-- Claim C7: the map returned by list_bls_files holds an entry for a filename
exactly when the document has a kept hyperlink reference — non-empty, not
ending in "/", not starting with "?" — whose final path segment is that
filename, and every stored url is urljoin of the site root (not of the listing
page URL) with such a reference. -/
theorem claim_C7_listing_filter (u : String → String → String) (root : String)
    (hrefs : List (Option String)) :
    (∀ name, ((dictGet (listBlsFiles u root hrefs) name).isSome = true ↔
      ∃ href, (some href) ∈ hrefs ∧
        ¬(href = "" ∨ endsWithSlash href = true ∨ startsWithQuery href = true) ∧
        baseName href = name)) ∧
    (∀ name v, dictGet (listBlsFiles u root hrefs) name = some v →
      ∃ href, (some href) ∈ hrefs ∧
        ¬(href = "" ∨ endsWithSlash href = true ∨ startsWithQuery href = true) ∧
        baseName href = name ∧ v = u root href) := by
  constructor
  · intro name
    rw [listBlsFiles_get]
    constructor
    · intro h
      cases hl : lastKeptHref hrefs name with
      | none =>
        rw [hl] at h
        cases h
      | some href =>
        obtain ⟨h1, h2, h3⟩ := lastKeptHref_spec hl
        exact ⟨href, h1, h2, h3⟩
    · rintro ⟨href, h1, h2, h3⟩
      have hsome := lastKeptHref_isSome_of_mem h1 h2 h3
      cases hl : lastKeptHref hrefs name with
      | none =>
        rw [hl] at hsome
        cases hsome
      | some r => rfl
  · intro name v h
    rw [listBlsFiles_get] at h
    cases hl : lastKeptHref hrefs name with
    | none =>
      rw [hl] at h
      cases h
    | some href =>
      rw [hl] at h
      obtain ⟨h1, h2, h3⟩ := lastKeptHref_spec hl
      exact ⟨href, h1, h2, h3, (Option.some.inj h).symm⟩

/-- Witness for claim C7 on a small document: the file link is kept under its
final path segment. -/
theorem claim_C7_witness :
    (dictGet (listBlsFiles uW "http://r" hrefsW) "pr.data.0").isSome = true :=
  ((claim_C7_listing_filter uW "http://r" hrefsW).1 "pr.data.0").mpr
    ⟨"pr/pr.data.0", by decide, by decide, rfl⟩

/-- Claim C10: an entry of the dict returned by list_bls_files is the urljoin
of the root with the last kept reference, in document order, whose final path
segment is that filename — later links silently overwrite earlier ones with
the same basename — so a document whose two kept links share a basename yields
a single-entry map, fewer entries than it has file links. -/
theorem claim_C10_last_wins (u : String → String → String) (root : String) :
    (∀ hrefs name, dictGet (listBlsFiles u root hrefs) name =
      (lastKeptHref hrefs name).map (u root)) ∧
    (listBlsFiles u root [some "a/x", some "b/x"]).length = 1 ∧
    lastKeptHref [some "a/x", some "b/x"] "x" = some "b/x" :=
  ⟨listBlsFiles_get u root, rfl, rfl⟩

/-- Claim C1: the diff one sync pass acts on is a three-way partition.  With
the remote dict bls and the prefix-scoped store listing: the upload set and
the unchanged set split the remote filename set, the delete set is the store
filename set minus the remote filename set, the three sets are pairwise
disjoint, and the mutations the engine issues are exactly a put per upload-set
filename followed by a delete per delete-set filename. -/
theorem claim_C1_three_way_partition (fp : Bytes → String)
    (fetch : String → Except NetErr Bytes) (cont : String → Bytes)
    (bls : List (String × String)) (st : Store) (b p : String)
    (hN : (bls.map Prod.fst).Nodup)
    (hF : ∀ fu ∈ bls, fetch fu.2 = .ok (cont fu.2)) :
    ((toUploadSet fp cont bls (listS3Objects st b p)).toFinset ∪
        (unchangedSet fp cont bls (listS3Objects st b p)).toFinset =
      (dictKeys bls).toFinset) ∧
    ((toDeleteSet bls (listS3Objects st b p)).toFinset =
      (dictKeys (listS3Objects st b p)).toFinset \ (dictKeys bls).toFinset) ∧
    Disjoint (toUploadSet fp cont bls (listS3Objects st b p)).toFinset
      (unchangedSet fp cont bls (listS3Objects st b p)).toFinset ∧
    Disjoint (toUploadSet fp cont bls (listS3Objects st b p)).toFinset
      (toDeleteSet bls (listS3Objects st b p)).toFinset ∧
    Disjoint (unchangedSet fp cont bls (listS3Objects st b p)).toFinset
      (toDeleteSet bls (listS3Objects st b p)).toFinset ∧
    (syncBlsPrToS3 fp fetch (.ok bls) (.ok ()) st b p).ops =
      (toUploadSet fp cont bls (listS3Objects st b p)).map
        (fun f => StoreOp.put b (p ++ f)) ++
      (toDeleteSet bls (listS3Objects st b p)).map
        (fun f => StoreOp.delete b (p ++ f)) := by
  refine ⟨?_, ?_, ?_, ?_, ?_, ?_⟩
  · ext f
    simp only [Finset.mem_union, List.mem_toFinset]
    constructor
    · rintro (h | h)
      · exact mem_keys_of_mem_toUploadSet h
      · exact mem_keys_of_mem_unchangedSet h
    · intro h
      obtain ⟨fu, hm, hf⟩ := List.mem_map.mp h
      by_cases hc : dictGet (listS3Objects st b p) fu.1 = some (fp (cont fu.2))
      · right
        exact (mem_unchangedSet_iff fp cont bls _ f).mpr ⟨fu, hm, hf, hc⟩
      · left
        exact (mem_toUploadSet_iff fp cont bls _ f).mpr ⟨fu, hm, hf, hc⟩
  · ext f
    simp only [List.mem_toFinset, Finset.mem_sdiff]
    exact mem_toDeleteSet_iff bls (listS3Objects st b p) f
  · rw [Finset.disjoint_left]
    intro f hfu hfc
    obtain ⟨fu, hm1, hf1, hc1⟩ :=
      (mem_toUploadSet_iff fp cont bls _ f).mp (List.mem_toFinset.mp hfu)
    obtain ⟨gu, hm2, hf2, hc2⟩ :=
      (mem_unchangedSet_iff fp cont bls _ f).mp (List.mem_toFinset.mp hfc)
    have hfg : fu = gu := entry_unique_of_nodup hN hm1 hm2 (by rw [hf1, hf2])
    rw [hfg] at hc1
    exact hc1 hc2
  · rw [Finset.disjoint_left]
    intro f hfu hfd
    have h1 := mem_keys_of_mem_toUploadSet (List.mem_toFinset.mp hfu)
    have h2 := (mem_toDeleteSet_iff bls _ f).mp (List.mem_toFinset.mp hfd)
    exact h2.2 h1
  · rw [Finset.disjoint_left]
    intro f hfu hfd
    have h1 := mem_keys_of_mem_unchangedSet (List.mem_toFinset.mp hfu)
    have h2 := (mem_toDeleteSet_iff bls _ f).mp (List.mem_toFinset.mp hfd)
    exact h2.2 h1
  · exact sync_ops_allok fp fetch cont bls st b p hF

/-- Witness for claim C1: the issued-operations conjunct at a one-file remote
listing over an empty store. -/
theorem claim_C1_witness :
    (syncBlsPrToS3 fpW fetchW (.ok [("a", "u2")]) (.ok ()) [] "data" "p/").ops =
      (toUploadSet fpW contW [("a", "u2")] (listS3Objects [] "data" "p/")).map
        (fun f => StoreOp.put "data" ("p/" ++ f)) ++
      (toDeleteSet [("a", "u2")] (listS3Objects [] "data" "p/")).map
        (fun f => StoreOp.delete "data" ("p/" ++ f)) :=
  (claim_C1_three_way_partition fpW fetchW contW [("a", "u2")] [] "data" "p/"
    (by decide)
    (by
      intro fu hfu
      rw [List.mem_singleton.mp hfu]
      rfl)).2.2.2.2.2

/-- Claim C5: with every file GET succeeding, a put for prefix ++ filename is
issued if and only if the store listing does not map the filename to the
fingerprint freshly computed from the just-downloaded bytes of that file —
that is, the filename is absent from the store, or present under a different
fingerprint.  The comparison value fp (cont fu.2) is recomputed from the bytes
the GET of this run returned, never cached. -/
theorem claim_C5_put_iff_changed (fp : Bytes → String)
    (fetch : String → Except NetErr Bytes) (cont : String → Bytes)
    (bls : List (String × String)) (st : Store) (b p : String)
    (hN : (bls.map Prod.fst).Nodup)
    (hF : ∀ fu ∈ bls, fetch fu.2 = .ok (cont fu.2)) :
    ∀ fu ∈ bls,
      (StoreOp.put b (p ++ fu.1) ∈
          (syncBlsPrToS3 fp fetch (.ok bls) (.ok ()) st b p).ops ↔
        ¬dictGet (listS3Objects st b p) fu.1 = some (fp (cont fu.2))) := by
  intro fu hfu
  rw [sync_ops_allok fp fetch cont bls st b p hF, List.mem_append]
  constructor
  · rintro (hup | hdel)
    · obtain ⟨f, hfm, hfe⟩ := List.mem_map.mp hup
      have hpp : p ++ f = p ++ fu.1 := by injection hfe
      have hff : f = fu.1 := append_left_cancel_str hpp
      rw [hff] at hfm
      obtain ⟨gu, hgm, hgf, hgc⟩ :=
        (mem_toUploadSet_iff fp cont bls _ fu.1).mp hfm
      have hgu : gu = fu := entry_unique_of_nodup hN hgm hfu hgf
      rw [hgu] at hgc
      exact hgc
    · obtain ⟨f, -, hfe⟩ := List.mem_map.mp hdel
      cases hfe
  · intro hc
    left
    refine List.mem_map.mpr ⟨fu.1, ?_, rfl⟩
    exact (mem_toUploadSet_iff fp cont bls _ fu.1).mpr ⟨fu, hfu, rfl, hc⟩

/-- Witness for claim C5 at a store already holding the file under a different
fingerprint. -/
theorem claim_C5_witness :
    (StoreOp.put "data" ("p/" ++ "a") ∈
        (syncBlsPrToS3 fpW fetchW (.ok [("a", "u2")]) (.ok ())
          [(("data", "p/a"), "0")] "data" "p/").ops ↔
      ¬dictGet (listS3Objects [(("data", "p/a"), "0")] "data" "p/") "a" =
        some (fpW (contW "u2"))) :=
  claim_C5_put_iff_changed fpW fetchW contW [("a", "u2")]
    [(("data", "p/a"), "0")] "data" "p/"
    (by decide)
    (by
      intro fu hfu
      rw [List.mem_singleton.mp hfu]
      rfl)
    ("a", "u2") (List.mem_singleton.mpr rfl)

/-- Store contents after one fully successful sync pass: every remote filename
is bound, under the prefix, to the fingerprint of its freshly fetched content,
and no other filename remains under the prefix. -/
theorem sync_first_run_store (fp : Bytes → String)
    (fetch : String → Except NetErr Bytes) (cont : String → Bytes)
    (bls : List (String × String)) (st0 : Store) (b p : String)
    (hN : (bls.map Prod.fst).Nodup)
    (hF : ∀ fu ∈ bls, fetch fu.2 = .ok (cont fu.2)) :
    (∀ fu ∈ bls,
      dictGet (syncBlsPrToS3 fp fetch (.ok bls) (.ok ()) st0 b p).store
        (b, p ++ fu.1) = some (fp (cont fu.2))) ∧
    (∀ f, f ∉ dictKeys bls →
      dictGet (syncBlsPrToS3 fp fetch (.ok bls) (.ok ()) st0 b p).store
        (b, p ++ f) = none) := by
  have hup1E : (uploadLoop fp fetch (listS3Objects st0 b p) b p bls st0).2.2 = none :=
    uploadLoop_noerr fp fetch cont (listS3Objects st0 b p) b p bls st0 hF
  have hsync1 := syncBlsPrToS3_eq_of_noerr fp fetch bls st0 b p hup1E
  have hPre : ∀ fu ∈ bls,
      dictGet (listS3Objects st0 b p) fu.1 = some (fp (cont fu.2)) →
      dictGet st0 (b, p ++ fu.1) = some (fp (cont fu.2)) := by
    intro fu hm hs
    rw [← dictGet_listS3Objects]
    exact hs
  have hupGet := uploadLoop_get_final fp fetch cont (listS3Objects st0 b p) b p
    bls st0 hN hF hPre
  constructor
  · intro fu hm
    rw [hsync1]
    show dictGet (deleteLoop bls b p (dictKeys (listS3Objects st0 b p))
      (uploadLoop fp fetch (listS3Objects st0 b p) b p bls st0).1).1
      (b, p ++ fu.1) = some (fp (cont fu.2))
    rw [deleteLoop_preserve_kept bls b p _ _ fu.1
      ((dictContains_iff_mem_keys bls fu.1).mpr (List.mem_map_of_mem Prod.fst hm))]
    exact hupGet fu hm
  · intro f hnb
    have hcf : dictContains bls f = false := by
      cases hc : dictContains bls f
      · rfl
      · exact absurd ((dictContains_iff_mem_keys bls f).mp hc) hnb
    rw [hsync1]
    show dictGet (deleteLoop bls b p (dictKeys (listS3Objects st0 b p))
      (uploadLoop fp fetch (listS3Objects st0 b p) b p bls st0).1).1
      (b, p ++ f) = none
    by_cases hmem : f ∈ dictKeys (listS3Objects st0 b p)
    · exact deleteLoop_kill bls b p _ _ f hmem hcf
    · have h0 : dictGet (listS3Objects st0 b p) f = none := by
        cases hg : dictGet (listS3Objects st0 b p) f with
        | none => rfl
        | some v =>
          exact absurd ((dictGet_isSome_iff_mem_keys _ f).mp (by rw [hg]; rfl)) hmem
      have h1 : dictGet st0 (b, p ++ f) = none := by
        rw [← dictGet_listS3Objects]
        exact h0
      have h2 : dictGet (uploadLoop fp fetch (listS3Objects st0 b p) b p bls st0).1
          (b, p ++ f) = none := by
        rw [uploadLoop_frame fp fetch (listS3Objects st0 b p) b p bls st0 _ ?_]
        · exact h1
        · intro fu hm hke
          have hfe : f = fu.1 := append_left_cancel_str (congrArg Prod.snd hke)
          exact hnb (hfe ▸ List.mem_map_of_mem Prod.fst hm)
      exact deleteLoop_none bls b p _ _ _ h2

/-- Running the sync against a store that already mirrors the remote dict is a
no-op: every file is skipped as unchanged and nothing is deleted. -/
theorem sync_second_run_noop (fp : Bytes → String)
    (fetch : String → Except NetErr Bytes) (cont : String → Bytes)
    (bls : List (String × String)) (o1 : Store) (b p : String)
    (hF : ∀ fu ∈ bls, fetch fu.2 = .ok (cont fu.2))
    (hkeep : ∀ fu ∈ bls, dictGet o1 (b, p ++ fu.1) = some (fp (cont fu.2)))
    (hdead : ∀ f, f ∉ dictKeys bls → dictGet o1 (b, p ++ f) = none) :
    syncBlsPrToS3 fp fetch (.ok bls) (.ok ()) o1 b p = ⟨o1, [], none⟩ := by
  have hs3f2 : ∀ fu ∈ bls,
      dictGet (listS3Objects o1 b p) fu.1 = some (fp (cont fu.2)) := by
    intro fu hm
    rw [dictGet_listS3Objects]
    exact hkeep fu hm
  have hup2 : uploadLoop fp fetch (listS3Objects o1 b p) b p bls o1 =
      (o1, [], none) :=
    uploadLoop_allskip fp fetch cont (listS3Objects o1 b p) b p bls o1 hF hs3f2
  have hnames2 : ∀ f ∈ dictKeys (listS3Objects o1 b p),
      dictContains bls f = true := by
    intro f hf
    cases hc : dictContains bls f with
    | false =>
      have hnb : f ∉ dictKeys bls := by
        intro hm
        rw [(dictContains_iff_mem_keys bls f).mpr hm] at hc
        cases hc
      have h0 : (dictGet (listS3Objects o1 b p) f).isSome = true :=
        (dictGet_isSome_iff_mem_keys _ f).mpr hf
      rw [dictGet_listS3Objects, hdead f hnb] at h0
      cases h0
    | true => rfl
  have hdel2 := deleteLoop_allskip bls b p (dictKeys (listS3Objects o1 b p)) o1 hnames2
  have hup2E : (uploadLoop fp fetch (listS3Objects o1 b p) b p bls o1).2.2 = none := by
    rw [hup2]
  have hsync2 := syncBlsPrToS3_eq_of_noerr fp fetch bls o1 b p hup2E
  rw [hsync2, hup2]
  show (⟨(deleteLoop bls b p (dictKeys (listS3Objects o1 b p)) o1).1,
    [] ++ (deleteLoop bls b p (dictKeys (listS3Objects o1 b p)) o1).2,
    none⟩ : SyncOutcome) = ⟨o1, [], none⟩
  rw [hdel2]
  rfl

/-- Claim C6: the sync is idempotent against an unchanged upstream.  After one
sync pass completes with every fetch succeeding, running the same pass again
from the resulting store issues no put and no delete, raises nothing, and
leaves the store identical. -/
theorem claim_C6_idempotent (fp : Bytes → String)
    (fetch : String → Except NetErr Bytes) (cont : String → Bytes)
    (bls : List (String × String)) (st0 : Store) (b p : String)
    (hN : (bls.map Prod.fst).Nodup)
    (hF : ∀ fu ∈ bls, fetch fu.2 = .ok (cont fu.2)) :
    (syncBlsPrToS3 fp fetch (.ok bls) (.ok ())
      (syncBlsPrToS3 fp fetch (.ok bls) (.ok ()) st0 b p).store b p).ops = [] ∧
    (syncBlsPrToS3 fp fetch (.ok bls) (.ok ())
      (syncBlsPrToS3 fp fetch (.ok bls) (.ok ()) st0 b p).store b p).error = none ∧
    (syncBlsPrToS3 fp fetch (.ok bls) (.ok ())
      (syncBlsPrToS3 fp fetch (.ok bls) (.ok ()) st0 b p).store b p).store =
      (syncBlsPrToS3 fp fetch (.ok bls) (.ok ()) st0 b p).store := by
  obtain ⟨hkeep, hdead⟩ := sync_first_run_store fp fetch cont bls st0 b p hN hF
  have h2 := sync_second_run_noop fp fetch cont bls
    (syncBlsPrToS3 fp fetch (.ok bls) (.ok ()) st0 b p).store b p hF hkeep hdead
  rw [h2]
  exact ⟨rfl, rfl, rfl⟩

/-- Witness for claim C6 at a one-file remote listing over an empty store. -/
theorem claim_C6_witness :
    (syncBlsPrToS3 fpW fetchW (.ok [("a", "u2")]) (.ok ())
      (syncBlsPrToS3 fpW fetchW (.ok [("a", "u2")]) (.ok ()) [] "data" "p/").store
      "data" "p/").ops = [] ∧
    (syncBlsPrToS3 fpW fetchW (.ok [("a", "u2")]) (.ok ())
      (syncBlsPrToS3 fpW fetchW (.ok [("a", "u2")]) (.ok ()) [] "data" "p/").store
      "data" "p/").error = none ∧
    (syncBlsPrToS3 fpW fetchW (.ok [("a", "u2")]) (.ok ())
      (syncBlsPrToS3 fpW fetchW (.ok [("a", "u2")]) (.ok ()) [] "data" "p/").store
      "data" "p/").store =
      (syncBlsPrToS3 fpW fetchW (.ok [("a", "u2")]) (.ok ()) [] "data" "p/").store :=
  claim_C6_idempotent fpW fetchW contW [("a", "u2")] [] "data" "p/"
    (by decide)
    (by
      intro fu hfu
      rw [List.mem_singleton.mp hfu]
      rfl)

/-- Bucket creation leaves the requested bucket present. -/
theorem mem_buckets_create (st : S3State) (bn : String) :
    bn ∈ (createS3BucketIfNotExists st bn).buckets := by
  unfold createS3BucketIfNotExists
  by_cases h : bn ∈ st.buckets
  · rw [if_pos h]
    exact h
  · rw [if_neg h]
    simp

/-- Unfolding of the handler when the population pull succeeds and the
subsequent sync raises: the 500 response is returned over the state the two
preceding steps left behind. -/
theorem handler_pop_ok_sync_err (fp : Bytes → String)
    (fetch : String → Except NetErr Bytes)
    (listingResult : Except NetErr (List (String × String)))
    (listTransport : Except NetErr Unit) (data : Bytes) (ev : Option String)
    (st0 : S3State) (e : NetErr)
    (hs : (syncBlsPrToS3 fp fetch listingResult listTransport
        (dictInsert (createS3BucketIfNotExists st0 (resolvedBucketName ev)).objects
          (resolvedBucketName ev,
            rstripSlash "population" ++ "/honolulu_population_data.json")
          (fp data))
        (resolvedBucketName ev) (lstripSlash basePath)).error = some e) :
    handler fp fetch listingResult listTransport (.ok data) ev st0 =
      (⟨(createS3BucketIfNotExists st0 (resolvedBucketName ev)).buckets,
          (syncBlsPrToS3 fp fetch listingResult listTransport
            (dictInsert (createS3BucketIfNotExists st0 (resolvedBucketName ev)).objects
              (resolvedBucketName ev,
                rstripSlash "population" ++ "/honolulu_population_data.json")
              (fp data))
            (resolvedBucketName ev) (lstripSlash basePath)).store⟩,
        ⟨500, "Error syncing BLS PR data"⟩) := by
  simp only [handler, pullPopulationDataToS3, hs]

/-- Claim C9: the handler is not atomic across its two steps.  When the
population pull succeeds and the BLS sync then raises, the handler returns
statusCode 500, yet the population JSON object written by the pull step is
still in the store under population/honolulu_population_data.json, and the
bucket resolved from the event remains present. -/
theorem claim_C9_handler_not_atomic (fp : Bytes → String)
    (fetch : String → Except NetErr Bytes)
    (listingResult : Except NetErr (List (String × String)))
    (listTransport : Except NetErr Unit) (data : Bytes) (ev : Option String)
    (st0 : S3State) (e : NetErr)
    (hs : (syncBlsPrToS3 fp fetch listingResult listTransport
        (dictInsert (createS3BucketIfNotExists st0 (resolvedBucketName ev)).objects
          (resolvedBucketName ev,
            rstripSlash "population" ++ "/honolulu_population_data.json")
          (fp data))
        (resolvedBucketName ev) (lstripSlash basePath)).error = some e) :
    (handler fp fetch listingResult listTransport (.ok data) ev st0).2.statusCode = 500 ∧
    dictGet (handler fp fetch listingResult listTransport (.ok data) ev st0).1.objects
      (resolvedBucketName ev,
        rstripSlash "population" ++ "/honolulu_population_data.json") =
      some (fp data) ∧
    resolvedBucketName ev ∈
      (handler fp fetch listingResult listTransport (.ok data) ev st0).1.buckets := by
  have hu := handler_pop_ok_sync_err fp fetch listingResult listTransport data ev st0 e hs
  refine ⟨?_, ?_, ?_⟩
  · rw [hu]
  · rw [hu]
    show dictGet (syncBlsPrToS3 fp fetch listingResult listTransport
      (dictInsert (createS3BucketIfNotExists st0 (resolvedBucketName ev)).objects
        (resolvedBucketName ev,
          rstripSlash "population" ++ "/honolulu_population_data.json")
        (fp data))
      (resolvedBucketName ev) (lstripSlash basePath)).store
      (resolvedBucketName ev,
        rstripSlash "population" ++ "/honolulu_population_data.json") =
      some (fp data)
    rw [sync_frame fp fetch listingResult listTransport _ _ _ _
      (show strHasPfx (rstripSlash "population" ++ "/honolulu_population_data.json")
        (lstripSlash basePath) = false by decide)]
    exact dictGet_insert_self _ _ _
  · rw [hu]
    exact mem_buckets_create st0 (resolvedBucketName ev)

/-- Witness for claim C9: the listing fetch raises while the population pull
has succeeded, over an initially empty store. -/
theorem claim_C9_witness :
    (handler fpW fetchW (.error .connectError) (.ok ()) (.ok [7]) none
      ⟨[], []⟩).2.statusCode = 500 ∧
    dictGet (handler fpW fetchW (.error .connectError) (.ok ()) (.ok [7]) none
      ⟨[], []⟩).1.objects
      (resolvedBucketName none,
        rstripSlash "population" ++ "/honolulu_population_data.json") =
      some (fpW [7]) ∧
    resolvedBucketName none ∈
      (handler fpW fetchW (.error .connectError) (.ok ()) (.ok [7]) none
        ⟨[], []⟩).1.buckets :=
  claim_C9_handler_not_atomic fpW fetchW (.error .connectError) (.ok ()) [7] none
    ⟨[], []⟩ .connectError rfl

end RearcPoc
